import Mathlib

/-!
Shallow embedding of the `quant-backtest` core in Lean 4.

The embedding covers the two core components of the repository:

* `backtest::DataHandler` (src/data/data_handler.cpp): a loaded sequence
  of `Bar`s plus a cursor (`current_index`), with `load_csv`, `has_next`,
  `get_next_bar` and `reset`.
* `backtest::SMAStrategy` (src/strategy/sma_strategy.cpp): two bounded
  FIFO windows of closing prices, a cached `current_signal`, with
  `calculate_sma`, `on_new_bar` and `generate_signal`.

C++ `double` values are modelled as rationals (`ℚ`); `std::deque` with
`push_back`/`pop_front` is modelled as a `List` where the head is the
oldest element (append at the back, drop at the front); a thrown
`std::out_of_range` is modelled as an `Except.error` while the returned
state is the unmodified receiver (a C++ `throw` performs no mutation).
-/

set_option autoImplicit false

namespace Backtest

/-- `backtest::Bar` (src/data/market_data.hpp): one OHLCV observation. -/
structure Bar where
  timestamp : String
  openPrice : ℚ
  high : ℚ
  low : ℚ
  close : ℚ
  volume : ℚ
deriving Repr, DecidableEq

/-- `backtest::SignalType` (src/strategy/strategy_base.hpp). -/
inductive SignalType where
  | BUY
  | SELL
  | HOLD
deriving Repr, DecidableEq

/-- `backtest::Signal` (src/strategy/strategy_base.hpp). -/
structure Signal where
  type : SignalType
  timestamp : String
  strength : ℚ
deriving Repr, DecidableEq

/-- `backtest::DataHandler` state: the loaded bars and the cursor. -/
structure DataHandler where
  bars : List Bar
  current_index : ℕ
deriving Repr, DecidableEq

namespace DataHandler

/-- `DataHandler::DataHandler()`: empty handler, index 0. -/
def init : DataHandler := ⟨[], 0⟩

/-- `DataHandler::load_csv` (src/data/data_handler.cpp, lines 29-60),
abstracted over the already-parsed rows of the file: the parsing loop
runs `bars_.emplace_back(...)` for each data row, appending to the
existing `bars_` vector; `current_index` is not touched. -/
def load_csv (s : DataHandler) (rows : List Bar) : DataHandler :=
  { s with bars := s.bars ++ rows }

/-- `DataHandler::has_next`: `current_index < bars_.size()`. -/
def has_next (s : DataHandler) : Bool :=
  s.current_index < s.bars.length

/-- `DataHandler::get_next_bar`: throws `std::out_of_range` when
`has_next()` is false (leaving the state untouched), otherwise returns
`bars_[current_index++]`. -/
def get_next_bar (s : DataHandler) : Except String Bar × DataHandler :=
  if h : s.current_index < s.bars.length then
    (Except.ok (s.bars.get ⟨s.current_index, h⟩),
     { s with current_index := s.current_index + 1 })
  else
    (Except.error "No more bars available", s)

/-- `DataHandler::reset`: `current_index = 0`. -/
def reset (s : DataHandler) : DataHandler :=
  { s with current_index := 0 }

/-- `DataHandler::size`. -/
def size (s : DataHandler) : ℕ := s.bars.length

/-- `n` successive calls to `get_next_bar`, collecting each call's
result (success or error) in order, threading the state. -/
def callsFrom (s : DataHandler) : ℕ → List (Except String Bar) × DataHandler
  | 0 => ([], s)
  | n + 1 =>
    let r := s.get_next_bar
    let rest := callsFrom r.2 n
    (r.1 :: rest.1, rest.2)

end DataHandler

/-- `SMAStrategy::calculate_sma`: mean of the window, `0.0` when empty. -/
def calculate_sma (prices : List ℚ) : ℚ :=
  if prices.isEmpty then 0
  else prices.sum / (prices.length : ℚ)

/-- `backtest::SMAStrategy` state (src/strategy/sma_strategy.hpp): the
two window sizes, the two price deques (head = oldest) and the cached
signal. -/
structure SMAStrategy where
  short_window : ℕ
  long_window : ℕ
  short_prices : List ℚ
  long_prices : List ℚ
  current_signal : Signal
deriving Repr, DecidableEq

namespace SMAStrategy

/-- `SMAStrategy::SMAStrategy(short_win, long_win)`: empty windows, and
`current_signal_(SignalType::HOLD, "", 1.0)`. -/
def init (short_win long_win : ℕ) : SMAStrategy :=
  ⟨short_win, long_win, [], [], ⟨SignalType.HOLD, "", 1⟩⟩

/-- The deque update in `SMAStrategy::on_new_bar`: `push_back(c)`, then
`pop_front()` when the size exceeds the cap. -/
def pushEvict (q : List ℚ) (c : ℚ) (cap : ℕ) : List ℚ :=
  let q1 := q ++ [c]
  if q1.length > cap then q1.tail else q1

/-- `SMAStrategy::on_new_bar` (src/strategy/sma_strategy.cpp, lines
64-103): update both windows; if the long window has fewer than
`long_window_` elements, cache `Signal(HOLD, bar.timestamp, 0.0)`;
otherwise classify the two means into BUY/SELL/HOLD. -/
def on_new_bar (s : SMAStrategy) (bar : Bar) : SMAStrategy :=
  let short2 := pushEvict s.short_prices bar.close s.short_window
  let long2 := pushEvict s.long_prices bar.close s.long_window
  let sig :=
    if long2.length < s.long_window then
      Signal.mk SignalType.HOLD bar.timestamp 0
    else
      let short_sma := calculate_sma short2
      let long_sma := calculate_sma long2
      if short_sma > long_sma then
        Signal.mk SignalType.BUY bar.timestamp 1
      else if short_sma < long_sma then
        Signal.mk SignalType.SELL bar.timestamp 1
      else
        Signal.mk SignalType.HOLD bar.timestamp (1 / 2)
  { s with short_prices := short2, long_prices := long2, current_signal := sig }

/-- `SMAStrategy::generate_signal`: returns the cached signal. -/
def generate_signal (s : SMAStrategy) : Signal :=
  s.current_signal

/-- Feeding a sequence of bars through `on_new_bar` in order. -/
def run (s : SMAStrategy) (bars : List Bar) : SMAStrategy :=
  bars.foldl on_new_bar s

end SMAStrategy

/-! ### Basic lemmas about the feed -/

namespace DataHandler

lemma get_next_bar_of_lt {bs : List Bar} {i : ℕ} (h : i < bs.length) :
    get_next_bar ⟨bs, i⟩ = (Except.ok (bs.get ⟨i, h⟩), ⟨bs, i + 1⟩) := by
  unfold get_next_bar
  rw [dif_pos h]

lemma get_next_bar_of_ge {bs : List Bar} {i : ℕ} (h : ¬ i < bs.length) :
    get_next_bar ⟨bs, i⟩ = (Except.error "No more bars available", ⟨bs, i⟩) := by
  unfold get_next_bar
  rw [dif_neg h]

/-- Running exactly the remaining number of calls from cursor `i`
returns every remaining bar in order and leaves the cursor at the end. -/
lemma callsFrom_exact :
    ∀ (n : ℕ) (bs : List Bar) (i : ℕ), i + n = bs.length →
      callsFrom ⟨bs, i⟩ n = ((bs.drop i).map Except.ok, ⟨bs, bs.length⟩) := by
  intro n
  induction n with
  | zero =>
    intro bs i h
    have hi : i = bs.length := by omega
    subst hi
    simp [callsFrom, List.drop_eq_nil_of_le (le_refl _)]
  | succ n ih =>
    intro bs i h
    have hi : i < bs.length := by omega
    simp only [callsFrom, get_next_bar_of_lt hi]
    have := ih bs (i + 1) (by omega)
    simp only [this, List.drop_eq_getElem_cons hi, List.map_cons, List.get_eq_getElem]

end DataHandler

end Backtest

namespace Backtest

/-! ### Claims about the feed -/

/-- C2: a feed loaded with `N` bars and iterated from cursor 0 yields
exactly `N` successes — each call returning the bar at the pre-call
cursor and advancing the cursor by one — after which `has_next` is
false and the `(N+1)`-th call produces the out-of-range error. -/
theorem spec_C2 (bs : List Bar) :
    (∀ (i : ℕ) (h : i < bs.length),
      DataHandler.get_next_bar ⟨bs, i⟩ =
        (Except.ok (bs.get ⟨i, h⟩), ⟨bs, i + 1⟩)) ∧
    (DataHandler.callsFrom ⟨bs, 0⟩ bs.length).1 = bs.map Except.ok ∧
    (DataHandler.callsFrom ⟨bs, 0⟩ bs.length).2 = ⟨bs, bs.length⟩ ∧
    DataHandler.has_next ⟨bs, bs.length⟩ = false ∧
    (DataHandler.get_next_bar ⟨bs, bs.length⟩).1 =
      Except.error "No more bars available" := by
  have hall := DataHandler.callsFrom_exact bs.length bs 0 (by omega)
  refine ⟨fun i h => DataHandler.get_next_bar_of_lt h, ?_, ?_, ?_, ?_⟩
  · rw [hall]; simp
  · rw [hall]
  · simp [DataHandler.has_next]
  · rw [DataHandler.get_next_bar_of_ge (lt_irrefl _)]

/-- Witness for C2 at the concrete one-bar feed. -/
theorem spec_C2_witness :
    (∀ (i : ℕ) (h : i < [Bar.mk "a" 1 2 3 4 5].length),
      DataHandler.get_next_bar ⟨[Bar.mk "a" 1 2 3 4 5], i⟩ =
        (Except.ok ([Bar.mk "a" 1 2 3 4 5].get ⟨i, h⟩),
         ⟨[Bar.mk "a" 1 2 3 4 5], i + 1⟩)) ∧
    (DataHandler.callsFrom ⟨[Bar.mk "a" 1 2 3 4 5], 0⟩ 1).1 =
      [Bar.mk "a" 1 2 3 4 5].map Except.ok ∧
    (DataHandler.callsFrom ⟨[Bar.mk "a" 1 2 3 4 5], 0⟩ 1).2 =
      ⟨[Bar.mk "a" 1 2 3 4 5], 1⟩ ∧
    DataHandler.has_next ⟨[Bar.mk "a" 1 2 3 4 5], 1⟩ = false ∧
    (DataHandler.get_next_bar ⟨[Bar.mk "a" 1 2 3 4 5], 1⟩).1 =
      Except.error "No more bars available" :=
  spec_C2 [Bar.mk "a" 1 2 3 4 5]

/-- C4 counterexample: on a feed whose cursor is 1 and which already
holds one bar, `load_csv` neither resets the cursor to 0 nor replaces
the backing sequence — it appends and keeps the cursor. -/
theorem spec_C4_counterexample :
    (DataHandler.load_csv ⟨[Bar.mk "a" 0 0 0 1 0], 1⟩
        [Bar.mk "b" 0 0 0 2 0]).current_index ≠ 0 ∧
    (DataHandler.load_csv ⟨[Bar.mk "a" 0 0 0 1 0], 1⟩
        [Bar.mk "b" 0 0 0 2 0]).bars ≠ [Bar.mk "b" 0 0 0 2 0] := by
  constructor
  · decide
  · simp [DataHandler.load_csv]

/-- C4 (amended): loading appends the supplied ordered bars to the
backing sequence and leaves the cursor unchanged; on a freshly
constructed (empty) feed this means the backing sequence becomes
exactly the loaded bars, the cursor is 0, and iteration starts at the
first element of the new sequence. -/
theorem spec_C4 (s : DataHandler) (rows : List Bar) :
    (s.load_csv rows).bars = s.bars ++ rows ∧
    (s.load_csv rows).current_index = s.current_index ∧
    (DataHandler.init.load_csv rows).bars = rows ∧
    (DataHandler.init.load_csv rows).current_index = 0 ∧
    (∀ (b : Bar) (rest : List Bar), rows = b :: rest →
      (DataHandler.init.load_csv rows).get_next_bar.1 = Except.ok b) := by
  refine ⟨rfl, rfl, by simp [DataHandler.load_csv, DataHandler.init], rfl, ?_⟩
  rintro b rest rfl
  have h0 : (0 : ℕ) < (b :: rest).length := by simp
  have : DataHandler.init.load_csv (b :: rest) = ⟨b :: rest, 0⟩ := by
    simp [DataHandler.load_csv, DataHandler.init]
  rw [this, DataHandler.get_next_bar_of_lt h0]
  simp

/-- Witness for C4 (amended) at a concrete feed and row list. -/
theorem spec_C4_witness :
    ((DataHandler.mk [Bar.mk "a" 0 0 0 1 0] 1).load_csv
        [Bar.mk "b" 0 0 0 2 0]).bars =
      [Bar.mk "a" 0 0 0 1 0] ++ [Bar.mk "b" 0 0 0 2 0] ∧
    ((DataHandler.mk [Bar.mk "a" 0 0 0 1 0] 1).load_csv
        [Bar.mk "b" 0 0 0 2 0]).current_index = 1 ∧
    (DataHandler.init.load_csv [Bar.mk "b" 0 0 0 2 0]).bars =
      [Bar.mk "b" 0 0 0 2 0] ∧
    (DataHandler.init.load_csv [Bar.mk "b" 0 0 0 2 0]).current_index = 0 ∧
    (∀ (b : Bar) (rest : List Bar), [Bar.mk "b" 0 0 0 2 0] = b :: rest →
      (DataHandler.init.load_csv [Bar.mk "b" 0 0 0 2 0]).get_next_bar.1 =
        Except.ok b) :=
  spec_C4 (DataHandler.mk [Bar.mk "a" 0 0 0 1 0] 1) [Bar.mk "b" 0 0 0 2 0]

/-- C5: from any prior cursor position, `reset` followed by iterating
to exhaustion yields exactly the loaded bar sequence, identical to a
full iteration from the initial state; neither reset nor iteration
changes the backing sequence. -/
theorem spec_C5 (bs : List Bar) (i : ℕ) :
    DataHandler.reset ⟨bs, i⟩ = ⟨bs, 0⟩ ∧
    (DataHandler.callsFrom (DataHandler.reset ⟨bs, i⟩) bs.length).1 =
      (DataHandler.callsFrom ⟨bs, 0⟩ bs.length).1 ∧
    (DataHandler.callsFrom (DataHandler.reset ⟨bs, i⟩) bs.length).1 =
      bs.map Except.ok ∧
    (DataHandler.callsFrom (DataHandler.reset ⟨bs, i⟩) bs.length).2.bars = bs := by
  have hr : DataHandler.reset ⟨bs, i⟩ = ⟨bs, 0⟩ := rfl
  have hall := DataHandler.callsFrom_exact bs.length bs 0 (by omega)
  refine ⟨hr, by rw [hr], ?_, ?_⟩
  · rw [hr, hall]; simp
  · rw [hr, hall]

/-- C9: when `has_next()` is false, `get_next_bar` raises the
out-of-range error and leaves the feed state entirely unchanged. -/
theorem spec_C9 (s : DataHandler) (h : s.has_next = false) :
    s.get_next_bar = (Except.error "No more bars available", s) := by
  have hn : ¬ s.current_index < s.bars.length := by
    simpa [DataHandler.has_next] using h
  cases s with
  | mk bs i => exact DataHandler.get_next_bar_of_ge hn

/-- Witness for C9 at a concrete exhausted feed. -/
theorem spec_C9_witness :
    DataHandler.has_next ⟨[Bar.mk "a" 1 2 3 4 5], 1⟩ = false ∧
    DataHandler.get_next_bar ⟨[Bar.mk "a" 1 2 3 4 5], 1⟩ =
      (Except.error "No more bars available", ⟨[Bar.mk "a" 1 2 3 4 5], 1⟩) :=
  ⟨by decide, spec_C9 ⟨[Bar.mk "a" 1 2 3 4 5], 1⟩ (by decide)⟩

/-! ### Basic lemmas about the strategy -/

namespace SMAStrategy

lemma pushEvict_eq (q : List ℚ) (c : ℚ) (cap : ℕ) :
    pushEvict q c cap =
      if (q ++ [c]).length > cap then (q ++ [c]).tail else q ++ [c] := rfl

lemma pushEvict_length {q : List ℚ} {c : ℚ} {cap : ℕ} (h : q.length ≤ cap) :
    (pushEvict q c cap).length = min (q.length + 1) cap := by
  rw [pushEvict_eq]
  split <;> simp_all
  all_goals omega

lemma mem_pushEvict {x : ℚ} {q : List ℚ} {c : ℚ} {cap : ℕ}
    (h : x ∈ pushEvict q c cap) : x ∈ q ∨ x = c := by
  rw [pushEvict_eq] at h
  split at h
  · have := List.mem_of_mem_tail h
    simpa using this
  · simpa using h

lemma on_new_bar_short_prices (s : SMAStrategy) (bar : Bar) :
    (s.on_new_bar bar).short_prices =
      pushEvict s.short_prices bar.close s.short_window := rfl

lemma on_new_bar_long_prices (s : SMAStrategy) (bar : Bar) :
    (s.on_new_bar bar).long_prices =
      pushEvict s.long_prices bar.close s.long_window := rfl

lemma on_new_bar_short_window (s : SMAStrategy) (bar : Bar) :
    (s.on_new_bar bar).short_window = s.short_window := rfl

lemma on_new_bar_long_window (s : SMAStrategy) (bar : Bar) :
    (s.on_new_bar bar).long_window = s.long_window := rfl

/-- The cached signal after one `on_new_bar` call, as a case split on
the warm-up gate and the SMA comparison. -/
lemma on_new_bar_current_signal (s : SMAStrategy) (bar : Bar) :
    (s.on_new_bar bar).current_signal =
      if (pushEvict s.long_prices bar.close s.long_window).length < s.long_window then
        Signal.mk SignalType.HOLD bar.timestamp 0
      else if calculate_sma (pushEvict s.short_prices bar.close s.short_window) >
              calculate_sma (pushEvict s.long_prices bar.close s.long_window) then
        Signal.mk SignalType.BUY bar.timestamp 1
      else if calculate_sma (pushEvict s.short_prices bar.close s.short_window) <
              calculate_sma (pushEvict s.long_prices bar.close s.long_window) then
        Signal.mk SignalType.SELL bar.timestamp 1
      else
        Signal.mk SignalType.HOLD bar.timestamp (1 / 2) := rfl

lemma run_nil (s : SMAStrategy) : s.run [] = s := rfl

lemma run_cons (s : SMAStrategy) (b : Bar) (t : List Bar) :
    s.run (b :: t) = (s.on_new_bar b).run t := rfl

lemma run_concat (s : SMAStrategy) (l : List Bar) (b : Bar) :
    s.run (l ++ [b]) = (s.run l).on_new_bar b := by
  unfold run
  rw [List.foldl_append]
  rfl

lemma run_short_window (l : List Bar) :
    ∀ s : SMAStrategy, (s.run l).short_window = s.short_window := by
  induction l with
  | nil => intro s; rfl
  | cons b t ih => intro s; rw [run_cons]; exact ih _

lemma run_long_window (l : List Bar) :
    ∀ s : SMAStrategy, (s.run l).long_window = s.long_window := by
  induction l with
  | nil => intro s; rfl
  | cons b t ih => intro s; rw [run_cons]; exact ih _

/-- Length of the long window after a run: the window grows by one per
bar and is truncated at `long_window`. -/
lemma run_long_length (l : List Bar) :
    ∀ s : SMAStrategy, s.long_prices.length ≤ s.long_window →
      (s.run l).long_prices.length =
        min (s.long_prices.length + l.length) s.long_window := by
  induction l with
  | nil =>
    intro s h
    rw [run_nil]
    simp only [List.length_nil, Nat.add_zero]
    omega
  | cons b t ih =>
    intro s h
    rw [run_cons]
    have h1 : (s.on_new_bar b).long_prices.length =
        min (s.long_prices.length + 1) s.long_window := by
      rw [on_new_bar_long_prices]
      exact pushEvict_length h
    have h2 : (s.on_new_bar b).long_prices.length ≤ (s.on_new_bar b).long_window := by
      rw [h1, on_new_bar_long_window]
      omega
    rw [ih _ h2, h1, on_new_bar_long_window]
    simp only [List.length_cons]
    omega

/-- Length of the short window after a run. -/
lemma run_short_length (l : List Bar) :
    ∀ s : SMAStrategy, s.short_prices.length ≤ s.short_window →
      (s.run l).short_prices.length =
        min (s.short_prices.length + l.length) s.short_window := by
  induction l with
  | nil =>
    intro s h
    rw [run_nil]
    simp only [List.length_nil, Nat.add_zero]
    omega
  | cons b t ih =>
    intro s h
    rw [run_cons]
    have h1 : (s.on_new_bar b).short_prices.length =
        min (s.short_prices.length + 1) s.short_window := by
      rw [on_new_bar_short_prices]
      exact pushEvict_length h
    have h2 : (s.on_new_bar b).short_prices.length ≤ (s.on_new_bar b).short_window := by
      rw [h1, on_new_bar_short_window]
      omega
    rw [ih _ h2, h1, on_new_bar_short_window]
    simp only [List.length_cons]
    omega

/-- Every element of the short window after a run comes from the
initial window or from the close of one of the bars. -/
lemma run_short_mem (l : List Bar) :
    ∀ (s : SMAStrategy) (x : ℚ), x ∈ (s.run l).short_prices →
      x ∈ s.short_prices ∨ ∃ b ∈ l, x = b.close := by
  induction l with
  | nil => intro s x hx; exact Or.inl hx
  | cons b t ih =>
    intro s x hx
    rw [run_cons] at hx
    rcases ih _ x hx with h | ⟨b', hb', he⟩
    · rw [on_new_bar_short_prices] at h
      rcases mem_pushEvict h with h | h
      · exact Or.inl h
      · exact Or.inr ⟨b, by simp, h⟩
    · exact Or.inr ⟨b', by simp [hb'], he⟩

/-- Every element of the long window after a run comes from the
initial window or from the close of one of the bars. -/
lemma run_long_mem (l : List Bar) :
    ∀ (s : SMAStrategy) (x : ℚ), x ∈ (s.run l).long_prices →
      x ∈ s.long_prices ∨ ∃ b ∈ l, x = b.close := by
  induction l with
  | nil => intro s x hx; exact Or.inl hx
  | cons b t ih =>
    intro s x hx
    rw [run_cons] at hx
    rcases ih _ x hx with h | ⟨b', hb', he⟩
    · rw [on_new_bar_long_prices] at h
      rcases mem_pushEvict h with h | h
      · exact Or.inl h
      · exact Or.inr ⟨b, by simp, h⟩
    · exact Or.inr ⟨b', by simp [hb'], he⟩

/-- The mean of a nonempty constant window is the constant. -/
lemma calculate_sma_const {l : List ℚ} {c : ℚ} (hne : l ≠ [])
    (hc : ∀ x ∈ l, x = c) : calculate_sma l = c := by
  unfold calculate_sma
  rw [if_neg (by simpa using hne)]
  rw [List.sum_eq_card_nsmul l c hc]
  have h0 : l.length ≠ 0 := fun hl => hne (List.length_eq_zero.mp hl)
  have hlen : (l.length : ℚ) ≠ 0 := Nat.cast_ne_zero.mpr h0
  rw [nsmul_eq_mul]
  exact mul_div_cancel_left₀ c hlen

/-- The strength written by any single `on_new_bar` call is 0, 1/2 or 1. -/
lemma on_new_bar_strength (s : SMAStrategy) (bar : Bar) :
    (s.on_new_bar bar).current_signal.strength = 0 ∨
    (s.on_new_bar bar).current_signal.strength = 1 / 2 ∨
    (s.on_new_bar bar).current_signal.strength = 1 := by
  rw [on_new_bar_current_signal]
  split_ifs <;> simp

/-- Strengths in {0, 1/2, 1} are preserved by any run. -/
lemma run_strength (l : List Bar) :
    ∀ s : SMAStrategy,
      (s.current_signal.strength = 0 ∨ s.current_signal.strength = 1 / 2 ∨
        s.current_signal.strength = 1) →
      ((s.run l).current_signal.strength = 0 ∨
       (s.run l).current_signal.strength = 1 / 2 ∨
       (s.run l).current_signal.strength = 1) := by
  induction l with
  | nil => intro s h; exact h
  | cons b t ih =>
    intro s _
    rw [run_cons]
    exact ih _ (on_new_bar_strength s b)

end SMAStrategy

end Backtest

namespace Backtest

/-! ### Claims about the strategy -/

/-- C1: once the long queue holds `long_window_size` elements after an
`on_new_bar(bar)` call, the cached signal (returned by
`generate_signal`) is classified from the two arithmetic means:
short mean above long mean gives `Signal(BUY, bar.timestamp, 1.0)`,
below gives `Signal(SELL, bar.timestamp, 1.0)`, and exact equality
gives `Signal(HOLD, bar.timestamp, 0.5)`. -/
theorem spec_C1 (s : SMAStrategy) (bar : Bar)
    (h : (s.on_new_bar bar).long_prices.length = s.long_window) :
    (calculate_sma (s.on_new_bar bar).short_prices >
       calculate_sma (s.on_new_bar bar).long_prices →
      (s.on_new_bar bar).generate_signal =
        Signal.mk SignalType.BUY bar.timestamp 1) ∧
    (calculate_sma (s.on_new_bar bar).short_prices <
       calculate_sma (s.on_new_bar bar).long_prices →
      (s.on_new_bar bar).generate_signal =
        Signal.mk SignalType.SELL bar.timestamp 1) ∧
    (calculate_sma (s.on_new_bar bar).short_prices =
       calculate_sma (s.on_new_bar bar).long_prices →
      (s.on_new_bar bar).generate_signal =
        Signal.mk SignalType.HOLD bar.timestamp (1 / 2)) := by
  have hg : ¬ (SMAStrategy.pushEvict s.long_prices bar.close
      s.long_window).length < s.long_window := by
    rw [← SMAStrategy.on_new_bar_long_prices s bar, h]
    exact lt_irrefl _
  have hs := SMAStrategy.on_new_bar_current_signal s bar
  rw [if_neg hg, ← SMAStrategy.on_new_bar_short_prices s bar,
    ← SMAStrategy.on_new_bar_long_prices s bar] at hs
  refine ⟨?_, ?_, ?_⟩ <;> intro hc <;>
    simp only [SMAStrategy.generate_signal] <;> rw [hs]
  · rw [if_pos hc]
  · rw [if_neg (lt_asymm hc), if_pos hc]
  · rw [hc]
    simp

/-- Witness for C1 at a freshly warmed 1/1-window strategy. -/
theorem spec_C1_witness :
    ((SMAStrategy.init 1 1).on_new_bar (Bar.mk "w" 0 0 0 5 0)).generate_signal =
      Signal.mk SignalType.HOLD "w" (1 / 2) :=
  (spec_C1 (SMAStrategy.init 1 1) (Bar.mk "w" 0 0 0 5 0) rfl).2.2 rfl

/-- C3: with `long_window_size = L`, each of the first `L-1` calls to
`on_new_bar` caches `Signal(HOLD, bar.timestamp, 0.0)` regardless of
the price values: after the `k`-th bar, for any `0 < k < L`, the
signal is HOLD with strength 0 and the `k`-th bar's timestamp. -/
theorem spec_C3 (S L : ℕ) (bars : List Bar) (k : ℕ)
    (hk0 : 0 < k) (hkL : k < L) (hkb : k ≤ bars.length) :
    ((SMAStrategy.init S L).run (bars.take k)).current_signal =
      Signal.mk SignalType.HOLD (bars.get ⟨k - 1, by omega⟩).timestamp 0 := by
  obtain ⟨m, rfl⟩ : ∃ m, k = m + 1 := ⟨k - 1, by omega⟩
  have hm : m < bars.length := by omega
  have htake : bars.take (m + 1) = bars.take m ++ [bars.get ⟨m, hm⟩] := by
    rw [List.take_succ, List.getElem?_eq_getElem hm]
    simp [List.get_eq_getElem]
  rw [htake, SMAStrategy.run_concat]
  have hW : ((SMAStrategy.init S L).run (bars.take m)).long_window = L :=
    SMAStrategy.run_long_window _ _
  have h0 : (SMAStrategy.init S L).long_prices.length = 0 := rfl
  have hWi : (SMAStrategy.init S L).long_window = L := rfl
  have hlen : ((SMAStrategy.init S L).run (bars.take m)).long_prices.length = m := by
    have hrl := SMAStrategy.run_long_length (bars.take m) (SMAStrategy.init S L)
      (Nat.zero_le _)
    rw [h0, hWi, List.length_take] at hrl
    rw [hrl]
    omega
  have hgate : (SMAStrategy.pushEvict
      ((SMAStrategy.init S L).run (bars.take m)).long_prices
      (bars.get ⟨m, hm⟩).close
      ((SMAStrategy.init S L).run (bars.take m)).long_window).length <
      ((SMAStrategy.init S L).run (bars.take m)).long_window := by
    rw [SMAStrategy.pushEvict_length (by rw [hlen, hW]; omega), hlen, hW]
    omega
  rw [SMAStrategy.on_new_bar_current_signal, if_pos hgate]
  simp

/-- Witness for C3: a 1/2-window strategy on a one-bar prefix. -/
theorem spec_C3_witness :
    ((SMAStrategy.init 1 2).run ([Bar.mk "t1" 0 0 0 7 0].take 1)).current_signal =
      Signal.mk SignalType.HOLD
        (([Bar.mk "t1" 0 0 0 7 0]).get ⟨0, by decide⟩).timestamp 0 :=
  spec_C3 1 2 [Bar.mk "t1" 0 0 0 7 0] 1 (by decide) (by decide) (by decide)

/-- The concrete scenario of the spec's testable property: window
sizes 3 and 5 with closing prices [10,10,10,10,10,20,20,20]. -/
def c6bars : List Bar :=
  [Bar.mk "b1" 0 0 0 10 0, Bar.mk "b2" 0 0 0 10 0, Bar.mk "b3" 0 0 0 10 0,
   Bar.mk "b4" 0 0 0 10 0, Bar.mk "b5" 0 0 0 10 0, Bar.mk "b6" 0 0 0 20 0,
   Bar.mk "b7" 0 0 0 20 0, Bar.mk "b8" 0 0 0 20 0]

/-- C6 counterexample: after the sixth bar of the concrete scenario
the cached signal is not `Signal(SELL, "b6", 1.0)` as claimed — the
long queue at that point is [10,10,10,10,20] with mean 12, which lies
below the short mean 40/3, so the code produces BUY. -/
theorem spec_C6_counterexample :
    ((SMAStrategy.init 3 5).run (c6bars.take 6)).current_signal ≠
      Signal.mk SignalType.SELL "b6" 1 := by
  have hb : ((SMAStrategy.init 3 5).run (c6bars.take 6)).current_signal =
      Signal.mk SignalType.BUY "b6" 1 := by
    norm_num [c6bars, SMAStrategy.run, SMAStrategy.on_new_bar, SMAStrategy.pushEvict,
      SMAStrategy.init, calculate_sma]
  simp [hb]

/-- C6 (amended): in the concrete run with windows 3 and 5 over closes
[10,10,10,10,10,20,20,20], bars 1-4 give HOLD with strength 0, bar 5
gives HOLD with strength 1/2 (both means 10), and bars 6, 7 and 8 each
give BUY with strength 1 — at bar 6 the short mean is 40/3 and the
long mean is 12, so the short mean is already above the long mean. -/
theorem spec_C6 :
    ((SMAStrategy.init 3 5).run (c6bars.take 1)).current_signal =
      Signal.mk SignalType.HOLD "b1" 0 ∧
    ((SMAStrategy.init 3 5).run (c6bars.take 2)).current_signal =
      Signal.mk SignalType.HOLD "b2" 0 ∧
    ((SMAStrategy.init 3 5).run (c6bars.take 3)).current_signal =
      Signal.mk SignalType.HOLD "b3" 0 ∧
    ((SMAStrategy.init 3 5).run (c6bars.take 4)).current_signal =
      Signal.mk SignalType.HOLD "b4" 0 ∧
    ((SMAStrategy.init 3 5).run (c6bars.take 5)).current_signal =
      Signal.mk SignalType.HOLD "b5" (1 / 2) ∧
    calculate_sma (((SMAStrategy.init 3 5).run (c6bars.take 6)).short_prices) =
      40 / 3 ∧
    calculate_sma (((SMAStrategy.init 3 5).run (c6bars.take 6)).long_prices) =
      12 ∧
    ((SMAStrategy.init 3 5).run (c6bars.take 6)).current_signal =
      Signal.mk SignalType.BUY "b6" 1 ∧
    ((SMAStrategy.init 3 5).run (c6bars.take 7)).current_signal =
      Signal.mk SignalType.BUY "b7" 1 ∧
    ((SMAStrategy.init 3 5).run c6bars).current_signal =
      Signal.mk SignalType.BUY "b8" 1 := by
  refine ⟨?_, ?_, ?_, ?_, ?_, ?_, ?_, ?_, ?_, ?_⟩ <;>
    norm_num [c6bars, SMAStrategy.run, SMAStrategy.on_new_bar, SMAStrategy.pushEvict,
      SMAStrategy.init, calculate_sma]

/-- C7 counterexample: the freshly constructed strategy's default
signal carries strength 1.0 (full strength), not the neutral 0.5. -/
theorem spec_C7_counterexample :
    (SMAStrategy.init 10 50).generate_signal.strength ≠ 1 / 2 ∧
    (SMAStrategy.init 10 50).generate_signal =
      Signal.mk SignalType.HOLD "" 1 := by
  constructor
  · norm_num [SMAStrategy.init, SMAStrategy.generate_signal]
  · rfl

/-- C7 (amended): for every freshly constructed strategy (no call to
`on_new_bar` yet), `generate_signal` returns HOLD with an empty
timestamp and strength 1.0. -/
theorem spec_C7 (S L : ℕ) :
    ((SMAStrategy.init S L).run []).generate_signal =
      Signal.mk SignalType.HOLD "" 1 := rfl

/-- C8: with positive window sizes and a constant closing price of 100
for at least `long_window_size` bars, both means are exactly 100 and
the cached signal is HOLD with strength 0.5. -/
theorem spec_C8 (S L : ℕ) (bars : List Bar) (hS : 0 < S) (hL : 0 < L)
    (hlen : L ≤ bars.length) (hconst : ∀ b ∈ bars, b.close = 100) :
    calculate_sma (((SMAStrategy.init S L).run bars).short_prices) = 100 ∧
    calculate_sma (((SMAStrategy.init S L).run bars).long_prices) = 100 ∧
    ((SMAStrategy.init S L).run bars).current_signal.type = SignalType.HOLD ∧
    ((SMAStrategy.init S L).run bars).current_signal.strength = 1 / 2 := by
  have hsmem : ∀ x ∈ ((SMAStrategy.init S L).run bars).short_prices, x = 100 := by
    intro x hx
    rcases SMAStrategy.run_short_mem bars _ x hx with h | ⟨b, hb, he⟩
    · simp [SMAStrategy.init] at h
    · rw [he]
      exact hconst b hb
  have hlmem : ∀ x ∈ ((SMAStrategy.init S L).run bars).long_prices, x = 100 := by
    intro x hx
    rcases SMAStrategy.run_long_mem bars _ x hx with h | ⟨b, hb, he⟩
    · simp [SMAStrategy.init] at h
    · rw [he]
      exact hconst b hb
  have hslen : ((SMAStrategy.init S L).run bars).short_prices.length =
      min bars.length S := by
    have := SMAStrategy.run_short_length bars (SMAStrategy.init S L) (Nat.zero_le _)
    simpa [SMAStrategy.init] using this
  have hllen : ((SMAStrategy.init S L).run bars).long_prices.length =
      min bars.length L := by
    have := SMAStrategy.run_long_length bars (SMAStrategy.init S L) (Nat.zero_le _)
    simpa [SMAStrategy.init] using this
  have hsne : ((SMAStrategy.init S L).run bars).short_prices ≠ [] := by
    intro hnil
    rw [hnil] at hslen
    simp at hslen
    omega
  have hlne : ((SMAStrategy.init S L).run bars).long_prices ≠ [] := by
    intro hnil
    rw [hnil] at hllen
    simp at hllen
    omega
  have hsma_s := SMAStrategy.calculate_sma_const hsne hsmem
  have hsma_l := SMAStrategy.calculate_sma_const hlne hlmem
  refine ⟨hsma_s, hsma_l, ?_⟩
  rcases List.eq_nil_or_concat bars with rfl | ⟨l, b, rfl⟩
  · simp at hlen
    omega
  · rw [List.concat_eq_append] at hsma_s hsma_l hlen ⊢
    rw [SMAStrategy.run_concat] at hsma_s hsma_l ⊢
    have hW : ((SMAStrategy.init S L).run l).long_window = L :=
      SMAStrategy.run_long_window _ _
    have hllen' : ((SMAStrategy.init S L).run l).long_prices.length =
        min l.length L := by
      have := SMAStrategy.run_long_length l (SMAStrategy.init S L) (Nat.zero_le _)
      simpa [SMAStrategy.init] using this
    have hgate : ¬ (SMAStrategy.pushEvict
        ((SMAStrategy.init S L).run l).long_prices b.close
        ((SMAStrategy.init S L).run l).long_window).length <
        ((SMAStrategy.init S L).run l).long_window := by
      rw [SMAStrategy.pushEvict_length (by rw [hllen', hW]; omega), hllen', hW]
      simp only [List.length_append, List.length_singleton] at hlen
      omega
    rw [SMAStrategy.on_new_bar_short_prices] at hsma_s
    rw [SMAStrategy.on_new_bar_long_prices] at hsma_l
    rw [SMAStrategy.on_new_bar_current_signal, if_neg hgate, hsma_s, hsma_l]
    simp

/-- Witness for C8 with windows 1 and 1 and a single 100-close bar. -/
theorem spec_C8_witness :
    calculate_sma (((SMAStrategy.init 1 1).run [Bar.mk "t" 0 0 0 100 0]).short_prices) = 100 ∧
    calculate_sma (((SMAStrategy.init 1 1).run [Bar.mk "t" 0 0 0 100 0]).long_prices) = 100 ∧
    ((SMAStrategy.init 1 1).run [Bar.mk "t" 0 0 0 100 0]).current_signal.type =
      SignalType.HOLD ∧
    ((SMAStrategy.init 1 1).run [Bar.mk "t" 0 0 0 100 0]).current_signal.strength =
      1 / 2 :=
  spec_C8 1 1 [Bar.mk "t" 0 0 0 100 0] (by decide) (by decide) (by decide)
    (by intro b hb; simp at hb; rw [hb])

/-- C10: every signal the strategy can ever return — including the
constructor's default before any bar — has strength 0, 1/2 or 1. -/
theorem spec_C10 (S L : ℕ) (bars : List Bar) :
    ((SMAStrategy.init S L).run bars).generate_signal.strength = 0 ∨
    ((SMAStrategy.init S L).run bars).generate_signal.strength = 1 / 2 ∨
    ((SMAStrategy.init S L).run bars).generate_signal.strength = 1 := by
  simp only [SMAStrategy.generate_signal]
  exact SMAStrategy.run_strength bars _ (Or.inr (Or.inr rfl))

end Backtest
